import Mathlib

/-!
Verification of the tool-invocation and conversation-state core of the
`agent-loop` repository, shallowly embedded in Lean 4.

The embedding follows the TypeScript sources:
  * `src/tools/toolRegistry.ts`  — `ToolRegistry` (reject-on-duplicate policy)
  * `src/tools/toolManager.ts`   — `ToolManager` (overwrite-on-duplicate policy)
  * `src/tools/baseTool.ts`      — `Tool` base class, zod-schema → JSON-schema
  * `src/agent/index.ts`         — `Agent`: prompt builder, extractor, turn loop

JavaScript objects/JSON values are modelled by the inductive `Json`
(numeric literals at integer precision — no claim involves fractional
numbers); JS exceptions by `Except`/error values carrying the thrown
message; `Map<string, Tool>` by an insertion-ordered list with unique
names; `undefined`/absent fields by `Option`.
-/

/-- JSON values (and general JS data reaching the core). Numbers are
modelled at integer precision. -/
inductive Json where
  | null : Json
  | bool : Bool → Json
  | num : Int → Json
  | str : String → Json
  | arr : List Json → Json
  | obj : List (String × Json) → Json

/-- JS property access `j.key`: defined (`some`) only on objects having the
key; JS object semantics keep the last occurrence of a duplicated key. -/
def Json.getField : Json → String → Option Json
  | .obj fields, key => (fields.reverse.find? (fun p => p.1 = key)).map (·.2)
  | _, _ => none

/-- JS truthiness of a possibly-absent value (`undefined`, `null`, `false`,
`0` and `""` are falsy; any object or array, even empty, is truthy). -/
def jsTruthy : Option Json → Bool
  | none => false
  | some .null => false
  | some (.bool b) => b
  | some (.num n) => n ≠ 0
  | some (.str s) => s ≠ ""
  | some (.arr _) => true
  | some (.obj _) => true

/-- JSON whitespace characters (the ASCII ones produced and consumed by the
messages this repository handles; also used for the regex class `\s`). -/
def isWsChar (c : Char) : Bool :=
  c = ' ' ∨ c = '\n' ∨ c = '\t' ∨ c = '\r'

/-- Drop leading whitespace from a character list. -/
def skipWs : List Char → List Char
  | [] => []
  | c :: cs => if isWsChar c then skipWs cs else c :: cs

/-- One escape of a JSON string literal body. -/
def unescapeChar (c : Char) : Option Char :=
  if c = '"' then some '"'
  else if c = '\\' then some '\\'
  else if c = '/' then some '/'
  else if c = 'n' then some '\n'
  else if c = 't' then some '\t'
  else if c = 'r' then some '\r'
  else none

/-- Parse the body of a JSON string literal (the opening quote already
consumed); returns the decoded characters and the rest of the input. -/
def parseStrBody : List Char → Option (List Char × List Char)
  | [] => none
  | c :: cs =>
    if c = '"' then some ([], cs)
    else if c = '\\' then
      match cs with
      | [] => none
      | e :: cs2 =>
        match unescapeChar e with
        | none => none
        | some d =>
          match parseStrBody cs2 with
          | none => none
          | some (body, rest) => some (d :: body, rest)
    else
      match parseStrBody cs with
      | none => none
      | some (body, rest) => some (c :: body, rest)

/-- Parse a run of decimal digits. -/
def parseDigits : List Char → Option (Nat × List Char)
  | [] => none
  | c :: cs =>
    if c.isDigit then
      match parseDigits cs with
      | some (n, rest) => some ((c.toNat - '0'.toNat) * 10 ^ (numLen cs) + n, rest)
      | none => some (c.toNat - '0'.toNat, cs)
    else none
where
  numLen : List Char → Nat
  | [] => 0
  | c :: cs => if c.isDigit then numLen cs + 1 else 0

/-- Does `pre` occur as a prefix of `cs`? -/
def charsStart : List Char → List Char → Bool
  | [], _ => true
  | _ :: _, [] => false
  | p :: ps, c :: cs => p = c ∧ charsStart ps cs

mutual

/-- Fuel-indexed recursive-descent JSON value parser. -/
def parseVal : Nat → List Char → Option (Json × List Char)
  | 0, _ => none
  | fuel + 1, cs =>
    match skipWs cs with
    | [] => none
    | c :: rest =>
      if c = 'n' then
        if charsStart ['u', 'l', 'l'] rest then some (.null, rest.drop 3) else none
      else if c = 't' then
        if charsStart ['r', 'u', 'e'] rest then some (.bool true, rest.drop 3) else none
      else if c = 'f' then
        if charsStart ['a', 'l', 's', 'e'] rest then some (.bool false, rest.drop 4) else none
      else if c = '"' then
        match parseStrBody rest with
        | some (body, rest2) => some (.str (String.mk body), rest2)
        | none => none
      else if c = '-' then
        match parseDigits rest with
        | some (n, rest2) => some (.num (-(n : Int)), rest2)
        | none => none
      else if c.isDigit then
        match parseDigits (c :: rest) with
        | some (n, rest2) => some (.num (n : Int), rest2)
        | none => none
      else if c = '[' then
        match skipWs rest with
        | ']' :: rest2 => some (.arr [], rest2)
        | _ => match parseElems fuel rest with
          | some (es, rest2) => some (.arr es, rest2)
          | none => none
      else if c = '\x7b' then
        match skipWs rest with
        | '\x7d' :: rest2 => some (.obj [], rest2)
        | _ => match parseMembers fuel rest with
          | some (fs, rest2) => some (.obj fs, rest2)
          | none => none
      else none

/-- Comma-separated array elements up to `]`. -/
def parseElems : Nat → List Char → Option (List Json × List Char)
  | 0, _ => none
  | fuel + 1, cs =>
    match parseVal fuel cs with
    | none => none
    | some (j, rest) =>
      match skipWs rest with
      | ',' :: rest2 =>
        match parseElems fuel rest2 with
        | some (es, rest3) => some (j :: es, rest3)
        | none => none
      | ']' :: rest2 => some ([j], rest2)
      | _ => none

/-- Comma-separated `"key": value` members up to the closing brace. -/
def parseMembers : Nat → List Char → Option (List (String × Json) × List Char)
  | 0, _ => none
  | fuel + 1, cs =>
    match skipWs cs with
    | '"' :: rest =>
      match parseStrBody rest with
      | none => none
      | some (key, rest2) =>
        match skipWs rest2 with
        | ':' :: rest3 =>
          match parseVal fuel rest3 with
          | none => none
          | some (v, rest4) =>
            match skipWs rest4 with
            | ',' :: rest5 =>
              match parseMembers fuel rest5 with
              | some (fs, rest6) => some ((String.mk key, v) :: fs, rest6)
              | none => none
            | '\x7d' :: rest5 => some ([(String.mk key, v)], rest5)
            | _ => none
        | _ => none
    | _ => none

end

/-- `JSON.parse`: the whole input must be one value with only trailing
whitespace; `none` models a thrown `SyntaxError`. -/
def Json.parse (s : String) : Option Json :=
  match parseVal (s.length + 1) s.data with
  | some (j, rest) => if skipWs rest = [] then some j else none
  | none => none

/-- Escape one character for a JSON string literal. -/
def escapeChar (c : Char) : List Char :=
  if c = '"' then ['\\', '"']
  else if c = '\\' then ['\\', '\\']
  else if c = '\n' then ['\\', 'n']
  else if c = '\t' then ['\\', 't']
  else if c = '\r' then ['\\', 'r']
  else [c]

/-- Serialize a string as a JSON string literal. -/
def quoteStr (s : String) : String :=
  String.mk ('"' :: (s.data.flatMap escapeChar) ++ ['"'])

mutual

/-- `JSON.stringify` (compact form, no added whitespace — the form the
agent uses for tool results and re-serialized arguments). -/
def Json.serialize : Json → String
  | .null => "null"
  | .bool true => "true"
  | .bool false => "false"
  | .num n => toString n
  | .str s => quoteStr s
  | .arr es => "[" ++ serializeElems es ++ "]"
  | .obj fs => "\x7b" ++ serializeMembers fs ++ "\x7d"

/-- Comma-joined serialized array elements. -/
def serializeElems : List Json → String
  | [] => ""
  | [e] => e.serialize
  | e :: es => e.serialize ++ "," ++ serializeElems es

/-- Comma-joined serialized object members. -/
def serializeMembers : List (String × Json) → String
  | [] => ""
  | [(k, v)] => quoteStr k ++ ":" ++ v.serialize
  | (k, v) :: fs => quoteStr k ++ ":" ++ v.serialize ++ "," ++ serializeMembers fs

end

/-! ## Zod schemas and the tool contract (`src/tools/baseTool.ts`) -/

/-- The zod field constructors the repository's schemas use (`z.string()`,
`z.number()`, `z.boolean()`, `z.enum([...])`, `z.array(...)`); these are
exactly the kinds `convertZodSchemaToJsonSchema` recognizes. -/
inductive ZPrim where
  | zstr : ZPrim
  | znum : ZPrim
  | zbool : ZPrim
  | zenum : List String → ZPrim
  | zarr : ZPrim

/-- One field of a `z.object({...})` schema: its key, base type, optional
`.describe(...)` text, and whether it is wrapped in `.optional()`. -/
structure ZField where
  name : String
  prim : ZPrim
  descr : Option String
  optional : Bool

/-- A `z.object({...})` schema, fields in declaration order. -/
structure ZodObject where
  fields : List ZField

/-- Does a JSON value conform to a zod base type? -/
def ZPrim.accepts : ZPrim → Json → Bool
  | .zstr, .str _ => true
  | .znum, .num _ => true
  | .zbool, .bool _ => true
  | .zenum options, .str s => options.contains s
  | .zarr, .arr _ => true
  | _, _ => false

/-- `schema.parse(args)` of a `z.object` in its default (strip) mode:
fails unless `args` is an object whose required fields are present and
well-typed (and whose present optional fields are well-typed); on success
returns the object restricted to the schema's keys, in schema order.
The error lists the offending field names. -/
def ZodObject.parse (schema : ZodObject) (args : Json) : Except (List String) Json :=
  match args with
  | .obj _ =>
    let issues := schema.fields.filterMap (fun f =>
      match args.getField f.name with
      | none => if f.optional then none else some f.name
      | some v => if f.prim.accepts v then none else some f.name)
    if issues.isEmpty then
      .ok (.obj (schema.fields.filterMap (fun f =>
        (args.getField f.name).map (fun v => (f.name, v)))))
    else
      .error issues
  | _ => .error ["<root>"]

/-- A tool (`BaseTool`): name, description, argument schema and the
execution capability. `execute` returns `Except String` — the `String` is
the message of the error the JS promise rejects with. -/
structure Tool where
  name : String
  description : String
  schema : ZodObject
  execute : Json → Except String Json

/-- `convertZodSchemaToJsonSchema` (`baseTool.ts`): builds the JSON-schema
`parameters` object. A field wrapped in `.optional()` matches none of the
`instanceof` checks, so its property object stays empty and it is left out
of `required`; the `required` key is removed entirely when empty. -/
def propertyOfField (f : ZField) : Json :=
  if f.optional then .obj []
  else
    let base : List (String × Json) :=
      match f.prim with
      | .zstr => [("type", .str "string")]
      | .znum => [("type", .str "number")]
      | .zbool => [("type", .str "boolean")]
      | .zenum options => [("type", .str "string"), ("enum", .arr (options.map Json.str))]
      | .zarr => [("type", .str "array")]
    match f.descr with
    | some d => .obj (base ++ [("description", .str d)])
    | none => .obj base

/-- The full `parameters` JSON schema for a tool's argument schema. -/
def convertZodSchemaToJsonSchema (schema : ZodObject) : Json :=
  let props : List (String × Json) :=
    schema.fields.map (fun f => (f.name, propertyOfField f))
  let required : List String :=
    (schema.fields.filter (fun f => ¬ f.optional)).map (·.name)
  if required.isEmpty then
    .obj [("type", .str "object"), ("properties", .obj props)]
  else
    .obj [("type", .str "object"), ("properties", .obj props),
          ("required", .arr (required.map Json.str))]

/-- The model-facing function definition of a tool
(`Tool.getFunctionDefinition`). -/
structure FunctionDef where
  name : String
  description : String
  parameters : Json

/-- `getFunctionDefinition()` — the `function` part (the constant
`type: 'function'` wrapper is implicit in the `FunctionDef` type). -/
def Tool.getFunctionDefinition (t : Tool) : FunctionDef :=
  { name := t.name, description := t.description,
    parameters := convertZodSchemaToJsonSchema t.schema }

/-! ## Tool registry (`src/tools/toolRegistry.ts`), reject-on-duplicate -/

/-- The registry's `Map<string, Tool>`: an insertion-ordered association
list (`Map.set` on a fresh key appends; `registerTool` never overwrites). -/
abbrev Registry := List Tool

/-- `Map.has` / lookup used by `getTool`. -/
def Registry.getTool (reg : Registry) (name : String) : Option Tool :=
  reg.find? (fun t => t.name = name)

/-- `getAllTools()` (`Map.values` in insertion order). -/
def Registry.getAllTools (reg : Registry) : List Tool := reg

/-- `getFunctionDefinitions()`. -/
def Registry.getFunctionDefinitions (reg : Registry) : List FunctionDef :=
  reg.map Tool.getFunctionDefinition

/-- `ToolRegistry.registerTool`: throws on a duplicate name (message of the
thrown `Error`), otherwise inserts. -/
def Registry.registerTool (reg : Registry) (t : Tool) : Except String Registry :=
  if reg.any (fun u => u.name = t.name) then
    .error ("Tool with name \"" ++ t.name ++ "\" is already registered")
  else
    .ok (reg ++ [t])

/-- `ToolRegistry.registerTools`: sequential `registerTool` calls; the first
thrown duplicate aborts the loop, leaving the registrations made so far in
place (the returned state) and propagating the error message. -/
def Registry.registerTools (reg : Registry) : List Tool → Registry × Option String
  | [] => (reg, none)
  | t :: ts =>
    match reg.registerTool t with
    | .ok reg2 => reg2.registerTools ts
    | .error e => (reg, some e)

/-- Errors observable from `ToolRegistry.executeTool`, with the message the
caller's `Error` carries. -/
inductive ToolError where
  | notFound : String → ToolError
  | validation : List String → ToolError
  | execFailure : String → ToolError

/-- The `message` of the JS error each `ToolError` models: the not-found
`Error`'s text, the `ZodError`'s issue summary, or — for a failure thrown
by the tool's own `execute` — the original message, unchanged (the
`catch` block in `executeTool` logs the tool name but re-throws the
original error). -/
def ToolError.message : ToolError → String
  | .notFound name => "Tool \"" ++ name ++ "\" not found"
  | .validation issues => "Invalid arguments: " ++ String.intercalate ", " issues
  | .execFailure msg => msg

/-- `ToolRegistry.executeTool(name, args)`: look the tool up (throw
not-found if absent), validate `args` with `tool.schema.parse` (throw the
`ZodError` if invalid — the tool's `execute` is never reached), then call
`execute` on the validated arguments; its result is returned and its
failure re-thrown unchanged. -/
def Registry.executeTool (reg : Registry) (name : String) (args : Json) :
    Except ToolError Json :=
  match reg.getTool name with
  | none => .error (.notFound name)
  | some tool =>
    match tool.schema.parse args with
    | .error issues => .error (.validation issues)
    | .ok validated =>
      match tool.execute validated with
      | .ok result => .ok result
      | .error msg => .error (.execFailure msg)

/-! ## Tool manager (`src/tools/toolManager.ts`), overwrite-on-duplicate -/

/-- `ToolManager.registerTool`: on a duplicate name it warns and
overwrites — `Map.set` replaces the value at the existing key, keeping its
insertion position; otherwise it appends. -/
def mgrRegisterTool (reg : List Tool) (t : Tool) : List Tool :=
  if reg.any (fun u => u.name = t.name) then
    reg.map (fun u => if u.name = t.name then t else u)
  else
    reg ++ [t]

/-- `ToolManager.registerTools`: sequential `registerTool` calls (never
throws). -/
def mgrRegisterTools (reg : List Tool) (ts : List Tool) : List Tool :=
  ts.foldl mgrRegisterTool reg

/-! ## Messages and tool-call shapes (`src/llm/types.ts`, `src/agent/types.ts`) -/

/-- Message roles. -/
inductive Role where
  | system : Role
  | user : Role
  | assistant : Role
  | tool : Role
deriving DecidableEq, Repr

/-- The `function` part of a structured or legacy tool call: name plus the
JSON-encoded argument string. -/
structure CallFunction where
  name : String
  arguments : String
deriving DecidableEq, Repr

/-- A canonical tool call (`type: 'function'` is the only type and is
implicit). -/
structure ToolCall where
  id : String
  function : CallFunction
deriving DecidableEq, Repr

/-- A conversation message. `content` is `string | null`; the two
extractor-relevant carrier fields are optional: `tool_calls` models a
present array value (absent or non-array reads as `none`), `function_call`
the legacy single-call field. -/
structure Message where
  role : Role
  content : Option String := none
  tool_calls : Option (List ToolCall) := none
  function_call : Option CallFunction := none
  tool_call_id : Option String := none
deriving DecidableEq, Repr

/-! ## Tool-call extractor (`Agent.extractToolCalls`) -/

/-- Lazy group of the fenced-JSON regex: the shortest run ending at a
closing brace that is followed by optional whitespace and a closing
fence. Returns the group characters including that closing brace. -/
def lazyClose : List Char → Option (List Char)
  | [] => none
  | c :: rest =>
    if c = '\x7d' ∧ charsStart "```".data (skipWs rest) then some [c]
    else
      match lazyClose rest with
      | some grp => some (c :: grp)
      | none => none

/-- After a literal ```` ```json ````: skip whitespace, require an opening
brace, then take the lazily-matched braced group. -/
def fencedGroupAt (cs : List Char) : Option String :=
  match skipWs cs with
  | '\x7b' :: rest => (lazyClose rest).map (fun grp => String.mk ('\x7b' :: grp))
  | _ => none

/-- First match of `/```json\s*(\{[\s\S]*?\})\s*```/` over the content:
the regex engine tries successive start positions; a start position can
only succeed at an occurrence of the literal ```` ```json ````. -/
def matchFenced : List Char → Option String
  | [] => none
  | c :: rest =>
    if charsStart "```json".data (c :: rest) then
      match fencedGroupAt ((c :: rest).drop 7) with
      | some grp => some grp
      | none => matchFenced rest
    else
      matchFenced rest

/-- The synthetic id `call_${Date.now()}` given to tier-2 and tier-3
calls; the clock reading is passed in explicitly. -/
def legacyId (now : Nat) : String := "call_" ++ toString now

/-- Rendering of a truthy `name` field into the canonical call's name
slot. The canonical form types names as strings; for the JSON string
names the repository's models produce this is the string itself (a truthy
non-string name is rendered by its serialization). -/
def jsonAsName : Option Json → String
  | some (.str s) => s
  | some j => j.serialize
  | none => ""

/-- Tier-3 argument normalization: a string `arguments` value is passed
through, anything else is re-serialized with `JSON.stringify`. -/
def jsonAsArgString : Json → String
  | .str s => s
  | j => j.serialize

/-- `Agent.extractToolCalls`: three tiers, first match wins.
1. a present `tool_calls` array is returned as-is (even when empty);
2. a present legacy `function_call` becomes a one-element list with a
   synthetic id;
3. a fenced ```` ```json ```` block in string content whose parsed object
   has truthy `name` and `arguments` becomes a one-element list; parse
   failures and near-misses fall through to the empty list. -/
def extractToolCalls (now : Nat) (msg : Message) : List ToolCall :=
  match msg.tool_calls with
  | some calls => calls
  | none =>
    match msg.function_call with
    | some fc =>
      [{ id := legacyId now, function := { name := fc.name, arguments := fc.arguments } }]
    | none =>
      match msg.content with
      | some contentStr =>
        match matchFenced contentStr.data with
        | some grp =>
          match Json.parse grp with
          | none => []
          | some parsed =>
            if jsTruthy (parsed.getField "name") ∧ jsTruthy (parsed.getField "arguments") then
              [{ id := legacyId now,
                 function := { name := jsonAsName (parsed.getField "name"),
                               arguments := jsonAsArgString ((parsed.getField "arguments").getD .null) } }]
            else []
        | none => []
      | none => []

/-! ## System prompt builder (`Agent.updateSystemPromptWithTools`) -/

/-- Agent configuration (`AgentConfig`); numeric knobs at integer
precision (they are passed through untouched). -/
structure AgentConfig where
  systemPrompt : Option String := none
  model : Option String := none
  temperature : Option Int := none
  maxTokens : Option Int := none

/-- The fixed default base prompt used when no `systemPrompt` is
configured (or it is falsy). -/
def defaultSystemPrompt : String :=
  "You are a helpful AI assistant that can use tools to accomplish tasks."

/-- `this.config.systemPrompt || default` — JS `||`, so the empty string
also falls back. -/
def basePromptOf (cfg : AgentConfig) : String :=
  match cfg.systemPrompt with
  | some s => if s = "" then defaultSystemPrompt else s
  | none => defaultSystemPrompt

/-- JS template-literal rendering of a JSON value (`${x}`). -/
def jsDisplay : Json → String
  | .null => "null"
  | .bool true => "true"
  | .bool false => "false"
  | .num n => toString n
  | .str s => s
  | .arr _ => ""
  | .obj _ => "[object Object]"

/-- `array.join(', ')` over a JSON array of display values. -/
def jsJoinComma : Json → String
  | .arr es => String.intercalate ", " (es.map jsDisplay)
  | j => jsDisplay j

/-- `Object.entries` of a JSON object. -/
def objEntries : Json → List (String × Json)
  | .obj fs => fs
  | _ => []

/-- Concatenation of rendered pieces (the `+=` loop). -/
def concatMap (f : α → String) : List α → String
  | [] => ""
  | x :: xs => f x ++ concatMap f xs

/-- One `- name (type): description Options: ...` parameter line. -/
def paramLine (key : String) (details : Json) : String :=
  "- " ++ key
  ++ (if jsTruthy (details.getField "type") then
        " (" ++ jsDisplay ((details.getField "type").getD .null) ++ ")"
      else "")
  ++ (if jsTruthy (details.getField "description") then
        ": " ++ jsDisplay ((details.getField "description").getD .null)
      else "")
  ++ (if jsTruthy (details.getField "enum") then
        " Options: " ++ jsJoinComma ((details.getField "enum").getD .null)
      else "")
  ++ "\n"

/-- The per-tool block of the tools description. -/
def toolBlock (t : Tool) : String :=
  let fd := t.getFunctionDefinition
  "Tool: " ++ fd.name ++ "\n"
  ++ "Description: " ++ fd.description ++ "\n"
  ++ (if jsTruthy (some fd.parameters) ∧ jsTruthy (fd.parameters.getField "properties") then
        "Parameters:\n"
        ++ concatMap (fun e => paramLine e.1 e.2)
             (objEntries ((fd.parameters.getField "properties").getD .null))
      else "")
  ++ "Example usage: Call the " ++ fd.name ++ " function with the proper parameters\n\n"

/-- The fixed numbered usage-instruction block. -/
def instructionsBlock : String :=
  "\nIMPORTANT INSTRUCTIONS FOR USING TOOLS:\n"
  ++ "1. When a user's request requires information that can be obtained through one of these tools, you MUST use the appropriate tool\n"
  ++ "2. You can call a tool by specifying the tool name and providing the required parameters\n"
  ++ "3. After receiving the tool's response, use that information to give a complete answer to the user\n"
  ++ "4. You CANNOT make up information. If you need data, use a tool to get it\n"
  ++ "5. NEVER invent parameters or options that don't exist in the tool definitions above\n"
  ++ "6. Always wait for tool results before providing a final response\n"

/-- The complete tools description appended after the base prompt. -/
def toolsDescription (tools : List Tool) : String :=
  "You have access to the following tools:\n\n"
  ++ concatMap toolBlock tools
  ++ instructionsBlock

/-- `updateSystemPromptWithTools`: a no-op when no tools are registered;
otherwise, when the first message exists and is the system message, its
content is replaced by base prompt + blank line + tools description
(derived solely from the configuration and the registry). -/
def updateSystemPromptWithTools (cfg : AgentConfig) (reg : Registry)
    (msgs : List Message) : List Message :=
  if (reg.getAllTools).length = 0 then msgs
  else
    match msgs with
    | [] => []
    | m0 :: rest =>
      if m0.role = .system then
        { m0 with content := some (basePromptOf cfg ++ "\n\n" ++ toolsDescription reg.getAllTools) } :: rest
      else
        m0 :: rest

/-! ## Agent state and turn loop (`Agent.processInput` and helpers) -/

/-- One record of `state.toolCalls` (successful invocations only). -/
structure ToolCallRecord where
  id : String
  name : String
  args : Json
  response : Json

/-- `AgentState`: the message log and the tool-call record list. -/
structure AgentState where
  messages : List Message
  toolCalls : List ToolCallRecord

/-- `resetState`: a fresh single system message whose content is the
configured prompt verbatim (possibly absent), then a prompt refresh. -/
def resetState (cfg : AgentConfig) (reg : Registry) : AgentState :=
  { messages := updateSystemPromptWithTools cfg reg
      [{ role := .system, content := cfg.systemPrompt }],
    toolCalls := [] }

/-- A chat-completion request as assembled by the agent. -/
structure Request where
  model : String
  messages : List Message
  tools : Option (List FunctionDef)
  temperature : Option Int
  max_tokens : Option Int

/-- The default model identifier (`?? 'anthropic/claude-3-opus:beta'`). -/
def defaultModel : String := "anthropic/claude-3-opus:beta"

/-- A `tool`-role message tagged with the originating call id. -/
def toolMessage (text : String) (callId : String) : Message :=
  { role := .tool, content := some text, tool_call_id := some callId }

/-- Stand-in for the runtime `SyntaxError` message of a failed
`JSON.parse` of the argument string (its precise text is produced by the
JS engine, not by this repository; no claim depends on it). -/
def parseFailureText (raw : String) : String :=
  "Unexpected token in JSON: " ++ raw

/-- `Agent.processToolCall`. A name missing from the registry is only
warned about — nothing is appended and nothing is thrown. Otherwise the
argument string is parsed (`arguments` is a string here, so the
typeof-object fallback of the inner catch cannot apply and a parse
failure is re-thrown into the outer catch), the registry executes the
call, and either the serialized result is appended as a `tool` message
(plus a `toolCalls` record) or the outer catch appends
`Error: <message>` as the `tool` message. Nothing escapes this method. -/
def processToolCall (reg : Registry) (st : AgentState) (tc : ToolCall) : AgentState :=
  match reg.getTool tc.function.name with
  | none => st
  | some _ =>
    match Json.parse tc.function.arguments with
    | none =>
      { st with messages := st.messages
          ++ [toolMessage ("Error: " ++ parseFailureText tc.function.arguments) tc.id] }
    | some args =>
      match reg.executeTool tc.function.name args with
      | .ok result =>
        { messages := st.messages ++ [toolMessage result.serialize tc.id],
          toolCalls := st.toolCalls
            ++ [{ id := tc.id, name := tc.function.name, args := args, response := result }] }
      | .error e =>
        { st with messages := st.messages
            ++ [toolMessage ("Error: " ++ e.message) tc.id] }

/-- The value returned by `processInput`. -/
structure AgentResult where
  message : String
  toolsUsed : List String

/-- `typeof content === 'string' ? content : JSON.stringify(content) ?? ''`
for `string | null` content (`JSON.stringify(null)` is the string
`"null"`). -/
def contentText : Option String → String
  | some s => s
  | none => "null"

/-- The message history as it stands when the first request is assembled:
the user turn appended, then the system prompt refreshed. -/
def promptedMessages (cfg : AgentConfig) (reg : Registry) (st : AgentState)
    (input : String) : List Message :=
  updateSystemPromptWithTools cfg reg
    (st.messages ++ [{ role := .user, content := some input }])

/-- The first chat-completion request of a turn: full history, the
function definitions of all registered tools (the `tools` field omitted
entirely when none are registered), and the configured knobs. -/
def firstRequest (cfg : AgentConfig) (reg : Registry) (st : AgentState)
    (input : String) : Request :=
  { model := cfg.model.getD defaultModel,
    messages := promptedMessages cfg reg st input,
    tools := if (reg.getFunctionDefinitions).length > 0
             then some reg.getFunctionDefinitions else none,
    temperature := cfg.temperature, max_tokens := cfg.maxTokens }

/-- The second (final) chat-completion request of a tool-using turn: the
extended history and no tools field. -/
def secondRequest (cfg : AgentConfig) (msgs : List Message) : Request :=
  { model := cfg.model.getD defaultModel, messages := msgs,
    tools := none, temperature := cfg.temperature, max_tokens := cfg.maxTokens }

/-- `Agent.processInput`, with the chat-completion collaborator passed in
as the function `llm` from assembled request to `choices[0].message`, and
the tier-2/3 synthetic-id clock as `now`. Returns the final agent state,
the `AgentResult`, and the list of requests dispatched in order. -/
def processInput (llm : Request → Message) (now : Nat) (cfg : AgentConfig)
    (reg : Registry) (st : AgentState) (input : String) :
    AgentState × AgentResult × List Request :=
  let req1 := firstRequest cfg reg st input
  let assistantMessage := llm req1
  let msgs3 := promptedMessages cfg reg st input ++ [assistantMessage]
  let calls := extractToolCalls now assistantMessage
  if calls.length > 0 then
    let st2 := calls.foldl (processToolCall reg) ⟨msgs3, st.toolCalls⟩
    let toolsUsed := calls.map (fun tc => tc.function.name)
    let req2 := secondRequest cfg st2.messages
    let finalMsg := llm req2
    (⟨st2.messages ++ [finalMsg], st2.toolCalls⟩,
     ⟨contentText finalMsg.content, toolsUsed⟩, [req1, req2])
  else
    (⟨msgs3, st.toolCalls⟩, ⟨contentText assistantMessage.content, []⟩, [req1])

/-! ## Helpers for the statements: substring containment and counting -/

set_option maxRecDepth 10000

/-- `pat` occurs somewhere in `s`. -/
def strContains (s pat : String) : Prop := pat.data <:+: s.data

/-- Number of (possibly overlapping) occurrence positions of `pat`. -/
def countOccur (pat : List Char) : List Char → Nat
  | [] => 0
  | c :: rest => (if charsStart pat (c :: rest) then 1 else 0) + countOccur pat rest

theorem string_data_append (a b : String) : (a ++ b).data = a.data ++ b.data :=
  String.data_append a b

theorem strContains_appendLeft {a p : String} (b : String) (h : strContains a p) :
    strContains (a ++ b) p := by
  unfold strContains at h ⊢
  rw [string_data_append]
  exact h.trans (List.prefix_append a.data b.data).isInfix

theorem strContains_appendRight {b p : String} (a : String) (h : strContains b p) :
    strContains (a ++ b) p := by
  unfold strContains at h ⊢
  rw [string_data_append]
  exact h.trans (List.suffix_append a.data b.data).isInfix

theorem strContains_self (p : String) : strContains p p := List.infix_refl p.data

/-- The registry with the `execute` capability of the tool called `name`
swapped out and everything else untouched — used to state that a
validation failure never reaches `execute`. -/
def replaceExec (reg : Registry) (name : String)
    (f : Json → Except String Json) : Registry :=
  reg.map (fun u => if u.name = name then { u with execute := f } else u)

theorem replaceExec_getTool {reg : Registry} {name : String} {t : Tool}
    (f : Json → Except String Json) (h : reg.getTool name = some t) :
    (replaceExec reg name f).getTool name = some { t with execute := f } := by
  induction reg with
  | nil => simp [Registry.getTool] at h
  | cons hd tl ih =>
    by_cases hh : hd.name = name
    · have hht : hd = t := by
        simpa [Registry.getTool, List.find?, hh] using h
      subst hht
      simp [Registry.getTool, replaceExec, List.find?, hh]
    · have h2 : Registry.getTool tl name = some t := by
        simpa [Registry.getTool, List.find?, hh] using h
      have h3 := ih h2
      simpa [Registry.getTool, replaceExec, List.find?, hh] using h3

/-- C1, amended part: with the tool present and the arguments valid, the
result is `execute`'s outcome, failures becoming `execFailure` with the
original message. -/
theorem executeTool_ok_case {reg : Registry} {name : String} {args v : Json} {t : Tool}
    (ht : reg.getTool name = some t) (hv : t.schema.parse args = .ok v) :
    reg.executeTool name args =
      (match t.execute v with
       | .ok r => .ok r
       | .error m => .error (.execFailure m)) := by
  simp [Registry.executeTool, ht, hv]

/-- C1: `executeTool(name, args)` fails with the not-found error when
`name` is absent; when the tool is present but the arguments fail its
schema it fails with the validation error and the tool's `execute` is
never invoked (the outcome is the same for every `execute` the tool could
carry); when the arguments satisfy the schema it calls `execute` on the
validated, stripped arguments and returns its result — but a failure
thrown by `execute` is propagated *unchanged* (the tool name appears only
in the `console.error` log, not on the propagated error). -/
theorem executeTool_pipeline (reg : Registry) (name : String) (args : Json) :
    (reg.getTool name = none → reg.executeTool name args = .error (.notFound name))
    ∧ (∀ t issues, reg.getTool name = some t → t.schema.parse args = .error issues →
        reg.executeTool name args = .error (.validation issues)
        ∧ ∀ f, (replaceExec reg name f).executeTool name args = .error (.validation issues))
    ∧ (∀ t v, reg.getTool name = some t → t.schema.parse args = .ok v →
        reg.executeTool name args =
          (match t.execute v with
           | .ok r => .ok r
           | .error m => .error (.execFailure m))
        ∧ ∀ m, t.execute v = .error m →
            reg.executeTool name args = .error (.execFailure m)
            ∧ (ToolError.execFailure m).message = m) := by
  refine ⟨?_, ?_, ?_⟩
  · intro h
    simp [Registry.executeTool, h]
  · intro t issues ht hbad
    constructor
    · simp [Registry.executeTool, ht, hbad]
    · intro f
      have := replaceExec_getTool f ht
      simp [Registry.executeTool, this, hbad]
  · intro t v ht hv
    refine ⟨executeTool_ok_case ht hv, ?_⟩
    intro m hm
    rw [executeTool_ok_case ht hv, hm]
    exact ⟨rfl, rfl⟩

/-- A concrete tool whose `execute` always fails with message `"boom"`. -/
def calcBoomTool : Tool :=
  { name := "calc", description := "calculator",
    schema := { fields := [{ name := "x", prim := .zstr, descr := none, optional := false }] },
    execute := fun _ => .error "boom" }

/-- A concrete echo tool whose schema requires field `x: string`. -/
def echoTool : Tool :=
  { name := "echo", description := "echoes",
    schema := { fields := [{ name := "x", prim := .zstr, descr := none, optional := false }] },
    execute := fun v => .ok v }

/-- C1 counterexample: for the registered tool `calc` whose `execute`
throws `"boom"` on valid arguments, `executeTool` propagates the error
with message exactly `"boom"` — the tool name does not occur in the
propagated message, refuting "propagated wrapped with the tool name for
context". -/
theorem executeTool_unwrapped_cex :
    Registry.executeTool [calcBoomTool] "calc" (.obj [("x", .str "1")])
      = .error (.execFailure "boom")
    ∧ (ToolError.execFailure "boom").message = "boom"
    ∧ ¬ strContains "boom" "calc" := by
  refine ⟨rfl, rfl, ?_⟩
  unfold strContains
  decide

/-- Witness for C1: the three branches of `executeTool_pipeline` at
concrete inputs (absent name; schema `{x: string}` invoked with `{}`;
valid arguments echoed back). -/
theorem executeTool_pipeline_witness :
    Registry.executeTool [echoTool] "nope" (.obj []) = .error (.notFound "nope")
    ∧ Registry.executeTool [echoTool] "echo" (.obj []) = .error (.validation ["x"])
    ∧ Registry.executeTool [echoTool] "echo" (.obj [("x", .str "hi")])
        = .ok (.obj [("x", .str "hi")]) := by
  refine ⟨?_, ?_, ?_⟩
  · exact (executeTool_pipeline [echoTool] "nope" (.obj [])).1 rfl
  · exact ((executeTool_pipeline [echoTool] "echo" (.obj [])).2.1 echoTool ["x"] rfl rfl).1
  · exact ((executeTool_pipeline [echoTool] "echo" (.obj [("x", .str "hi")])).2.2
      echoTool (.obj [("x", .str "hi")]) rfl rfl).1

/-! ## C8: registry states reachable by registration sequences -/

/-- Registry states reachable from the empty `ToolRegistry` by any
sequence of `registerTool`/`registerTools` calls (a failed `registerTool`
throws before mutating, so it contributes no step; an aborted
`registerTools` leaves the registrations made before the duplicate). -/
inductive RegReachable : Registry → Prop where
  | empty : RegReachable []
  | register {reg reg2 : Registry} {t : Tool} :
      RegReachable reg → reg.registerTool t = .ok reg2 → RegReachable reg2
  | registerMany {reg : Registry} (ts : List Tool) :
      RegReachable reg → RegReachable (reg.registerTools ts).1

/-- `ToolManager` states reachable from empty by any sequence of
`registerTool`/`registerTools` calls. -/
inductive MgrReachable : List Tool → Prop where
  | empty : MgrReachable []
  | register {reg : List Tool} (t : Tool) :
      MgrReachable reg → MgrReachable (mgrRegisterTool reg t)
  | registerMany {reg : List Tool} (ts : List Tool) :
      MgrReachable reg → MgrReachable (mgrRegisterTools reg ts)

theorem registerTool_ok_nodup {reg reg2 : Registry} {t : Tool}
    (hn : (reg.map Tool.name).Nodup) (h : reg.registerTool t = .ok reg2) :
    (reg2.map Tool.name).Nodup := by
  unfold Registry.registerTool at h
  by_cases hdup : reg.any (fun u => u.name = t.name)
  · simp [hdup] at h
  · simp [hdup] at h
    subst h
    simp only [List.map_append, List.map_cons, List.map_nil]
    rw [List.nodup_append]
    refine ⟨hn, List.nodup_singleton _, ?_⟩
    intro x hx
    simp only [List.mem_singleton]
    intro hx1
    subst hx1
    simp only [List.any_eq_true, decide_eq_true_eq] at hdup
    simp only [List.mem_map] at hx
    obtain ⟨u, hu, hun⟩ := hx
    exact hdup ⟨u, hu, hun⟩

theorem registerTools_nodup {reg : Registry} (ts : List Tool)
    (hn : (reg.map Tool.name).Nodup) :
    ((reg.registerTools ts).1.map Tool.name).Nodup := by
  induction ts generalizing reg with
  | nil => simpa [Registry.registerTools] using hn
  | cons t ts ih =>
    unfold Registry.registerTools
    cases hreg : reg.registerTool t with
    | ok reg2 => exact ih (registerTool_ok_nodup hn hreg)
    | error e => simpa using hn

theorem mgrRegisterTool_nodup {reg : List Tool} {t : Tool}
    (hn : (reg.map Tool.name).Nodup) :
    ((mgrRegisterTool reg t).map Tool.name).Nodup := by
  unfold mgrRegisterTool
  by_cases hdup : reg.any (fun u => u.name = t.name)
  · rw [if_pos hdup]
    have heq : (reg.map (fun u => if u.name = t.name then t else u)).map Tool.name
        = reg.map Tool.name := by
      rw [List.map_map]
      apply List.map_congr_left
      intro u _
      by_cases hu : u.name = t.name
      · simp [Function.comp, hu]
      · simp [Function.comp, hu]
    rw [heq]
    exact hn
  · rw [if_neg hdup]
    simp only [List.map_append, List.map_cons, List.map_nil]
    rw [List.nodup_append]
    refine ⟨hn, List.nodup_singleton _, ?_⟩
    intro x hx
    simp only [List.mem_singleton]
    intro hx1
    subst hx1
    simp only [List.any_eq_true, decide_eq_true_eq] at hdup
    simp only [List.mem_map] at hx
    obtain ⟨u, hu, hun⟩ := hx
    exact hdup ⟨u, hu, hun⟩

theorem mgrRegisterTools_nodup {reg : List Tool} (ts : List Tool)
    (hn : (reg.map Tool.name).Nodup) :
    ((mgrRegisterTools reg ts).map Tool.name).Nodup := by
  induction ts generalizing reg with
  | nil => simpa [mgrRegisterTools] using hn
  | cons t ts ih =>
    unfold mgrRegisterTools
    simp only [List.foldl_cons]
    exact ih (mgrRegisterTool_nodup hn)

/-- C8: every registry state reachable by `registerTool`/`registerTools`
sequences has pairwise-distinct tool names (for both the
reject-on-duplicate `ToolRegistry` and the overwrite `ToolManager`), and
a registration under an already-present name either throws (leaving the
mapping untouched — `ToolRegistry`) or replaces the entry in place
(`ToolManager`); neither ever yields two entries for one name. -/
theorem registry_unique_names :
    (∀ reg : Registry, RegReachable reg → (reg.map Tool.name).Nodup)
    ∧ (∀ reg : List Tool, MgrReachable reg → (reg.map Tool.name).Nodup)
    ∧ (∀ (reg : Registry) (t : Tool), t.name ∈ reg.map Tool.name →
        reg.registerTool t
          = .error ("Tool with name \"" ++ t.name ++ "\" is already registered"))
    ∧ (∀ (reg : List Tool) (t : Tool), t.name ∈ reg.map Tool.name →
        mgrRegisterTool reg t = reg.map (fun u => if u.name = t.name then t else u)) := by
  refine ⟨?_, ?_, ?_, ?_⟩
  · intro reg h
    induction h with
    | empty => simp
    | register hr hok ih => exact registerTool_ok_nodup ih hok
    | registerMany ts hr ih => exact registerTools_nodup ts ih
  · intro reg h
    induction h with
    | empty => simp
    | register t hr ih => exact mgrRegisterTool_nodup ih
    | registerMany ts hr ih => exact mgrRegisterTools_nodup ts ih
  · intro reg t hmem
    have hdup : reg.any (fun u => u.name = t.name) = true := by
      simp only [List.any_eq_true, decide_eq_true_eq]
      simp only [List.mem_map] at hmem
      obtain ⟨u, hu, hun⟩ := hmem
      exact ⟨u, hu, hun⟩
    simp [Registry.registerTool, hdup]
  · intro reg t hmem
    have hdup : reg.any (fun u => u.name = t.name) = true := by
      simp only [List.any_eq_true, decide_eq_true_eq]
      simp only [List.mem_map] at hmem
      obtain ⟨u, hu, hun⟩ := hmem
      exact ⟨u, hu, hun⟩
    simp [mgrRegisterTool, hdup]

/-- A second concrete tool, distinct name. -/
def sumTool : Tool :=
  { name := "sum", description := "adds", schema := { fields := [] },
    execute := fun _ => .ok .null }

/-- A tool reusing the name `echo` (duplicate registration). -/
def echoV2Tool : Tool :=
  { name := "echo", description := "echoes v2", schema := { fields := [] },
    execute := fun _ => .ok .null }

/-- Witness for C8: a two-tool batch stays duplicate-free; overwriting
registration of the same name twice stays duplicate-free; a duplicate
`registerTool` throws; a duplicate `ToolManager` registration replaces in
place. -/
theorem registry_unique_names_witness :
    (((Registry.registerTools [] [echoTool, sumTool]).1.map Tool.name).Nodup)
    ∧ (((mgrRegisterTool (mgrRegisterTool [] echoTool) echoV2Tool).map Tool.name).Nodup)
    ∧ (Registry.registerTool [echoTool] echoV2Tool
        = .error ("Tool with name \"echo\" is already registered"))
    ∧ (mgrRegisterTool [echoTool] echoV2Tool
        = [echoTool].map (fun u => if u.name = echoV2Tool.name then echoV2Tool else u)) := by
  refine ⟨?_, ?_, ?_, ?_⟩
  · exact registry_unique_names.1 _
      (RegReachable.registerMany [echoTool, sumTool] RegReachable.empty)
  · exact registry_unique_names.2.1 _
      (MgrReachable.register echoV2Tool (MgrReachable.register echoTool MgrReachable.empty))
  · exact registry_unique_names.2.2.1 [echoTool] echoV2Tool (by decide)
  · exact registry_unique_names.2.2.2 [echoTool] echoV2Tool (by decide)

/-! ## C2, C9: extractor precedence -/

/-- The content carries an embedded fenced-JSON tool call: the fenced
regex matches and the matched group parses to a value with truthy `name`
and `arguments` — exactly the tier-3 trigger. -/
def hasFencedCall (s : String) : Prop :=
  ∃ grp parsed, matchFenced s.data = some grp ∧ Json.parse grp = some parsed
    ∧ jsTruthy (parsed.getField "name") = true
    ∧ jsTruthy (parsed.getField "arguments") = true

/-- C2: a message carrying both a structured `tool_calls` list and an
embedded fenced-JSON call yields exactly the structured list (the block
is ignored); and the tiers are tried in fixed order with no merging — in
particular, with no `tool_calls` field, a legacy `function_call` wins
over any content. -/
theorem extract_structured_first :
    (∀ (now : Nat) (msg : Message) (calls : List ToolCall) (s : String),
        msg.tool_calls = some calls → msg.content = some s → hasFencedCall s →
        extractToolCalls now msg = calls)
    ∧ (∀ (now : Nat) (msg : Message) (fc : CallFunction),
        msg.tool_calls = none → msg.function_call = some fc →
        extractToolCalls now msg
          = [{ id := legacyId now,
               function := { name := fc.name, arguments := fc.arguments } }]) := by
  constructor
  · intro now msg calls s h1 _ _
    simp [extractToolCalls, h1]
  · intro now msg fc h1 h2
    simp [extractToolCalls, h1, h2]

/-- Assistant content embedding a fenced-JSON tool call. -/
def fencedDemo : String :=
  "run\n```json\n\x7b\"name\":\"calc\",\"arguments\":\x7b\"x\":\"1\"\x7d\x7d\n```"

/-- The group the fenced regex captures out of `fencedDemo`. -/
def fencedDemoGroup : String :=
  "\x7b\"name\":\"calc\",\"arguments\":\x7b\"x\":\"1\"\x7d\x7d"

/-- The parse of that group. -/
def fencedDemoJson : Json :=
  .obj [("name", .str "calc"), ("arguments", .obj [("x", .str "1")])]

/-- A concrete structured call. -/
def structuredCall : ToolCall :=
  { id := "call_9", function := { name := "lookup", arguments := "\x7b\x7d" } }

/-- Message carrying both the structured list and the fenced block. -/
def msgStructuredAndFenced : Message :=
  { role := .assistant, content := some fencedDemo, tool_calls := some [structuredCall] }

/-- Message carrying a legacy `function_call` plus the fenced block. -/
def msgLegacyAndFenced : Message :=
  { role := .assistant, content := some fencedDemo,
    function_call := some { name := "leg", arguments := "\x7b\x7d" } }

/-- Witness for C2 at concrete messages. -/
theorem extract_structured_first_witness :
    extractToolCalls 3 msgStructuredAndFenced = [structuredCall]
    ∧ extractToolCalls 3 msgLegacyAndFenced
        = [{ id := legacyId 3, function := { name := "leg", arguments := "\x7b\x7d" } }] := by
  constructor
  · exact extract_structured_first.1 3 msgStructuredAndFenced [structuredCall] fencedDemo
      rfl rfl ⟨fencedDemoGroup, fencedDemoJson, rfl, rfl, rfl, rfl⟩
  · exact extract_structured_first.2 3 msgLegacyAndFenced _ rfl rfl

/-- C9: a present-but-empty `tool_calls` array is returned as-is, so the
extractor yields the empty sequence without consulting the legacy
`function_call` shape or the content; consequently the turn is a final
answer — no tools reported used and only the single first request
dispatched. -/
theorem empty_tool_calls_final :
    (∀ (now : Nat) (msg : Message), msg.tool_calls = some [] →
        extractToolCalls now msg = [])
    ∧ (∀ (llm : Request → Message) (now : Nat) (cfg : AgentConfig) (reg : Registry)
        (st : AgentState) (input : String),
        (llm (firstRequest cfg reg st input)).tool_calls = some [] →
        (processInput llm now cfg reg st input).2.1.toolsUsed = []
        ∧ (processInput llm now cfg reg st input).2.2 = [firstRequest cfg reg st input]) := by
  constructor
  · intro now msg h
    simp [extractToolCalls, h]
  · intro llm now cfg reg st input h
    have hext : extractToolCalls now (llm (firstRequest cfg reg st input)) = [] := by
      simp [extractToolCalls, h]
    constructor <;> simp [processInput, hext]

/-- Message with an empty structured list plus both fallback shapes. -/
def msgEmptyStructured : Message :=
  { role := .assistant, content := some fencedDemo, tool_calls := some [],
    function_call := some { name := "leg", arguments := "\x7b\x7d" } }

/-- Witness for C9: both fallback shapes present are ignored and the turn
is a final answer. -/
theorem empty_tool_calls_final_witness :
    extractToolCalls 1 msgEmptyStructured = []
    ∧ (processInput (fun _ => msgEmptyStructured) 1 {} [] (resetState {} []) "hi").2.1.toolsUsed = [] := by
  constructor
  · exact empty_tool_calls_final.1 1 msgEmptyStructured rfl
  · exact (empty_tool_calls_final.2 (fun _ => msgEmptyStructured) 1 {} []
      (resetState {} []) "hi" rfl).1

/-! ## C5, C6, C7: system prompt builder -/

/-- C5: the builder is idempotent — for every configuration, registry
state and message log, running it twice yields exactly the state one run
yields, because the replacement content is derived solely from the
configuration and the registry (never from the previous content). -/
theorem prompt_builder_idempotent (cfg : AgentConfig) (reg : Registry)
    (msgs : List Message) :
    updateSystemPromptWithTools cfg reg (updateSystemPromptWithTools cfg reg msgs)
      = updateSystemPromptWithTools cfg reg msgs := by
  unfold updateSystemPromptWithTools
  by_cases hlen : (reg.getAllTools).length = 0
  · simp [hlen]
  · rw [if_neg hlen, if_neg hlen]
    cases msgs with
    | nil => rfl
    | cons m0 rest =>
      cases m0 with
      | mk role content tcs fc tcid =>
        by_cases hrole : role = Role.system
        · simp [hrole]
        · simp [hrole]

theorem strContains_trans {s q p : String} (h1 : strContains s q)
    (h2 : strContains q p) : strContains s p := h2.trans h1

theorem strContains_concatMap {α : Type} (f : α → String) {t : α} (l : List α)
    (ht : t ∈ l) {p : String} (hp : strContains (f t) p) :
    strContains (concatMap f l) p := by
  induction l with
  | nil => cases ht
  | cons hd tl ih =>
    rcases List.mem_cons.mp ht with h1 | h2
    · subst h1
      exact strContains_appendLeft _ hp
    · exact strContains_appendRight _ (ih h2)

theorem toolBlock_contains_name (t : Tool) : strContains (toolBlock t) t.name := by
  simp only [toolBlock, Tool.getFunctionDefinition]
  repeat first
  | exact strContains_appendRight _ (strContains_self _)
  | apply strContains_appendLeft

theorem toolBlock_contains_descr (t : Tool) :
    strContains (toolBlock t) t.description := by
  simp only [toolBlock, Tool.getFunctionDefinition]
  repeat first
  | exact strContains_appendRight _ (strContains_self _)
  | apply strContains_appendLeft

/-- C6 (amended): after a prompt refresh on a state whose first entry is
the system message, with a non-empty registry, the first entry is still
the system message and its content contains every registered tool's name
and description at least once. (The claim's "exactly once" fails: the
builder writes each tool name both on its `Tool:` line and in its
`Example usage:` line — see the counterexample.) -/
theorem prompt_lists_tools (cfg : AgentConfig) (reg : Registry) (m0 : Message)
    (rest : List Message) (hne : reg ≠ []) (hrole : m0.role = .system) :
    ∃ body,
      updateSystemPromptWithTools cfg reg (m0 :: rest)
        = { m0 with content := some body } :: rest
      ∧ ({ m0 with content := some body } : Message).role = .system
      ∧ ∀ t ∈ reg, strContains body t.name ∧ strContains body t.description := by
  have hlen : ¬ (reg.getAllTools).length = 0 := by
    simpa [Registry.getAllTools, List.length_eq_zero] using hne
  refine ⟨basePromptOf cfg ++ "\n\n" ++ toolsDescription reg.getAllTools, ?_, ?_, ?_⟩
  · unfold updateSystemPromptWithTools
    rw [if_neg hlen]
    exact if_pos hrole
  · exact hrole
  · intro t ht
    have htd1 : strContains (toolsDescription reg.getAllTools) t.name := by
      unfold toolsDescription
      exact strContains_appendLeft _ (strContains_appendRight _
        (strContains_concatMap toolBlock reg ht (toolBlock_contains_name t)))
    have htd2 : strContains (toolsDescription reg.getAllTools) t.description := by
      unfold toolsDescription
      exact strContains_appendLeft _ (strContains_appendRight _
        (strContains_concatMap toolBlock reg ht (toolBlock_contains_descr t)))
    exact ⟨strContains_appendRight _ htd1, strContains_appendRight _ htd2⟩

/-- Tool with a short distinctive name for counting occurrences. -/
def qqTool : Tool :=
  { name := "qq", description := "Dq.", schema := { fields := [] },
    execute := fun _ => .ok .null }

/-- C6 counterexample: with registered tool name `qq`, the refreshed
system content mentions `qq` twice (`Tool:` line and `Example usage:`
line), refuting "contains every registered tool's name ... exactly
once". -/
theorem prompt_name_twice_cex :
    countOccur "qq".data
      (((updateSystemPromptWithTools { systemPrompt := some "B." } [qqTool]
          [{ role := .system, content := none }]).head?.bind
          Message.content).getD "").data = 2 := by
  decide

/-- Witness for C6 at a concrete configuration and registry. -/
theorem prompt_lists_tools_witness :
    ∃ body,
      updateSystemPromptWithTools { systemPrompt := some "B." } [echoTool]
          [{ role := .system, content := none }]
        = [{ role := .system, content := some body }]
      ∧ strContains body "echo" ∧ strContains body "echoes" := by
  obtain ⟨body, h1, _, h3⟩ := prompt_lists_tools { systemPrompt := some "B." } [echoTool]
    { role := .system, content := none } [] (List.cons_ne_nil _ _) rfl
  refine ⟨body, h1, ?_, ?_⟩
  · exact (h3 echoTool (List.mem_singleton.mpr rfl)).1
  · exact (h3 echoTool (List.mem_singleton.mpr rfl)).2

/-- C7 (amended): with an empty registry the system message after
construction/reset carries exactly the configured `systemPrompt` value —
in particular it stays absent when none is configured, the fixed default
sentence is *not* substituted (it is applied only inside the non-empty
tools branch) — and every prompt refresh is the identity, so no tools
section is ever appended. -/
theorem reset_keeps_config_prompt (cfg : AgentConfig) (reg : Registry)
    (h : reg = []) :
    (resetState cfg reg).messages = [{ role := .system, content := cfg.systemPrompt }]
    ∧ ∀ msgs, updateSystemPromptWithTools cfg reg msgs = msgs := by
  subst h
  exact ⟨rfl, fun msgs => rfl⟩

/-- C7 counterexample: an agent constructed with no configured base
prompt and an empty registry has a system message with *no* content — not
the fixed default sentence the claim promises. -/
theorem reset_no_default_cex :
    (resetState {} []).messages.head?.bind Message.content = none
    ∧ (resetState {} []).messages.head?.bind Message.content
        ≠ some defaultSystemPrompt := by
  exact ⟨rfl, fun h => Option.noConfusion h⟩

/-- Witness for C7 at a concrete configured prompt. -/
theorem reset_keeps_config_prompt_witness :
    (resetState { systemPrompt := some "You answer briefly." } []).messages
      = [{ role := .system, content := some "You answer briefly." }]
    ∧ updateSystemPromptWithTools { systemPrompt := some "You answer briefly." } []
        [{ role := .user, content := some "hi" }]
      = [{ role := .user, content := some "hi" }] := by
  have h := reset_keeps_config_prompt { systemPrompt := some "You answer briefly." } [] rfl
  exact ⟨h.1, h.2 _⟩

/-! ## C3, C4, C10: the tool-using turn -/

theorem processInput_with_calls (llm : Request → Message) (now : Nat)
    (cfg : AgentConfig) (reg : Registry) (st : AgentState) (input : String)
    (calls : List ToolCall)
    (hcalls : extractToolCalls now (llm (firstRequest cfg reg st input)) = calls)
    (hne : calls ≠ []) :
    processInput llm now cfg reg st input =
      (⟨(calls.foldl (processToolCall reg)
           ⟨promptedMessages cfg reg st input ++ [llm (firstRequest cfg reg st input)],
            st.toolCalls⟩).messages
         ++ [llm (secondRequest cfg (calls.foldl (processToolCall reg)
              ⟨promptedMessages cfg reg st input ++ [llm (firstRequest cfg reg st input)],
               st.toolCalls⟩).messages)],
        (calls.foldl (processToolCall reg)
           ⟨promptedMessages cfg reg st input ++ [llm (firstRequest cfg reg st input)],
            st.toolCalls⟩).toolCalls⟩,
       ⟨contentText (llm (secondRequest cfg (calls.foldl (processToolCall reg)
              ⟨promptedMessages cfg reg st input ++ [llm (firstRequest cfg reg st input)],
               st.toolCalls⟩).messages)).content,
        calls.map (fun tc => tc.function.name)⟩,
       [firstRequest cfg reg st input,
        secondRequest cfg (calls.foldl (processToolCall reg)
           ⟨promptedMessages cfg reg st input ++ [llm (firstRequest cfg reg st input)],
            st.toolCalls⟩).messages]) := by
  have hpos : calls.length > 0 := List.length_pos.mpr hne
  simp only [processInput, hcalls]
  rw [if_pos hpos]

theorem processToolCall_exec_error {reg : Registry} {tc : ToolCall} {t : Tool}
    {args v : Json} {m : String} (st : AgentState)
    (ht : reg.getTool tc.function.name = some t)
    (hargs : Json.parse tc.function.arguments = some args)
    (hval : t.schema.parse args = .ok v)
    (hexec : t.execute v = .error m) :
    processToolCall reg st tc =
      { st with messages := st.messages ++ [toolMessage ("Error: " ++ m) tc.id] } := by
  have he : reg.executeTool tc.function.name args = .error (.execFailure m) := by
    rw [executeTool_ok_case ht hval, hexec]
  simp [processToolCall, ht, hargs, he, ToolError.message]

/-- C3: when the single extracted call's tool is registered, its
arguments parse and validate, and its execution throws `"boom"`, the turn
appends a `tool` message whose content is literally `"Error: boom"`
tagged with the call id, records no `toolCalls` entry, still dispatches
the second (final) chat-completion request, and completes normally with
the usual result. -/
theorem tool_failure_degrades (llm : Request → Message) (now : Nat)
    (cfg : AgentConfig) (reg : Registry) (st : AgentState) (input : String)
    (tc : ToolCall) (t : Tool) (args v : Json)
    (hresp : (llm (firstRequest cfg reg st input)).tool_calls = some [tc])
    (ht : reg.getTool tc.function.name = some t)
    (hargs : Json.parse tc.function.arguments = some args)
    (hval : t.schema.parse args = .ok v)
    (hexec : t.execute v = .error "boom") :
    (processInput llm now cfg reg st input).1.messages
      = promptedMessages cfg reg st input ++ [llm (firstRequest cfg reg st input)]
        ++ [toolMessage "Error: boom" tc.id]
        ++ [llm (secondRequest cfg (promptedMessages cfg reg st input
             ++ [llm (firstRequest cfg reg st input)]
             ++ [toolMessage "Error: boom" tc.id]))]
    ∧ (processInput llm now cfg reg st input).1.toolCalls = st.toolCalls
    ∧ (processInput llm now cfg reg st input).2.2
        = [firstRequest cfg reg st input,
           secondRequest cfg (promptedMessages cfg reg st input
             ++ [llm (firstRequest cfg reg st input)]
             ++ [toolMessage "Error: boom" tc.id])]
    ∧ (processInput llm now cfg reg st input).2.1.toolsUsed = [tc.function.name] := by
  have hext : extractToolCalls now (llm (firstRequest cfg reg st input)) = [tc] := by
    simp [extractToolCalls, hresp]
  rw [processInput_with_calls llm now cfg reg st input [tc] hext (by simp)]
  simp only [List.foldl_cons, List.foldl_nil]
  rw [processToolCall_exec_error _ ht hargs hval hexec]
  exact ⟨rfl, rfl, rfl, rfl⟩

/-- C4: when the single extracted call names a tool absent from the
registry, `processToolCall` leaves the state untouched (no `tool` message
is appended for the call) and the orchestrator still completes the turn
without throwing, dispatching both requests. -/
theorem missing_tool_skipped (llm : Request → Message) (now : Nat)
    (cfg : AgentConfig) (reg : Registry) (st : AgentState) (input : String)
    (tc : ToolCall)
    (hresp : (llm (firstRequest cfg reg st input)).tool_calls = some [tc])
    (habsent : reg.getTool tc.function.name = none) :
    (∀ s : AgentState, processToolCall reg s tc = s)
    ∧ (processInput llm now cfg reg st input).1.messages
        = promptedMessages cfg reg st input ++ [llm (firstRequest cfg reg st input)]
          ++ [llm (secondRequest cfg (promptedMessages cfg reg st input
               ++ [llm (firstRequest cfg reg st input)]))]
    ∧ (processInput llm now cfg reg st input).2.2.length = 2 := by
  have hskip : ∀ s : AgentState, processToolCall reg s tc = s := by
    intro s
    simp [processToolCall, habsent]
  have hext : extractToolCalls now (llm (firstRequest cfg reg st input)) = [tc] := by
    simp [extractToolCalls, hresp]
  refine ⟨hskip, ?_, ?_⟩
  all_goals
    rw [processInput_with_calls llm now cfg reg st input [tc] hext (by simp)]
    simp [List.foldl_cons, List.foldl_nil, hskip]

/-- C10: for a turn with a non-empty extracted call list, `toolsUsed`
is exactly the extracted calls' function names in extraction order —
including names of calls whose tool was absent from the registry and
never ran. -/
theorem toolsUsed_extraction_order (llm : Request → Message) (now : Nat)
    (cfg : AgentConfig) (reg : Registry) (st : AgentState) (input : String)
    (h : extractToolCalls now (llm (firstRequest cfg reg st input)) ≠ []) :
    (processInput llm now cfg reg st input).2.1.toolsUsed
      = (extractToolCalls now (llm (firstRequest cfg reg st input))).map
          (fun tc => tc.function.name) := by
  rw [processInput_with_calls llm now cfg reg st input _ rfl h]

/-- The structured call the demo model issues against `calc`. -/
def calcCall : ToolCall :=
  { id := "c1", function := { name := "calc", arguments := "\x7b\"x\":\"1\"\x7d" } }

/-- A model stub: answers the tools-carrying request with the structured
`calc` call and the final request with a plain answer. -/
def boomLLM : Request → Message := fun req =>
  match req.tools with
  | some _ => { role := .assistant, content := none, tool_calls := some [calcCall] }
  | none => { role := .assistant, content := some "done" }

/-- Witness for C3: the `calc` tool throws `"boom"`; the turn reports the
tool used, dispatches both requests, and the log carries the
`Error: boom` tool message. -/
theorem tool_failure_degrades_witness :
    (processInput boomLLM 0 {} [calcBoomTool] (resetState {} [calcBoomTool]) "go").2.1.toolsUsed
      = ["calc"]
    ∧ (processInput boomLLM 0 {} [calcBoomTool] (resetState {} [calcBoomTool]) "go").2.2.length = 2
    ∧ toolMessage "Error: boom" "c1"
        ∈ (processInput boomLLM 0 {} [calcBoomTool] (resetState {} [calcBoomTool]) "go").1.messages := by
  have h := tool_failure_degrades boomLLM 0 {} [calcBoomTool] (resetState {} [calcBoomTool]) "go"
    calcCall calcBoomTool (.obj [("x", .str "1")]) (.obj [("x", .str "1")]) rfl rfl rfl rfl rfl
  refine ⟨h.2.2.2, ?_, ?_⟩
  · rw [h.2.2.1]
    rfl
  · rw [h.1]
    simp [calcCall]

/-- A call naming a tool registered nowhere. -/
def ghostCall : ToolCall :=
  { id := "g1", function := { name := "ghost", arguments := "\x7b\x7d" } }

/-- A model stub that always issues the `ghost` call. -/
def ghostLLM : Request → Message := fun _ =>
  { role := .assistant, content := none, tool_calls := some [ghostCall] }

/-- Witness for C4: the unknown call leaves any state untouched, and the
turn still completes with both requests dispatched. -/
theorem missing_tool_skipped_witness :
    processToolCall [] { messages := [], toolCalls := [] } ghostCall
      = { messages := [], toolCalls := [] }
    ∧ (processInput ghostLLM 0 {} [] (resetState {} []) "hi").2.2.length = 2 := by
  have h := missing_tool_skipped ghostLLM 0 {} [] (resetState {} []) "hi" ghostCall rfl rfl
  exact ⟨h.1 _, h.2.2⟩

/-- Witness for C10: the skipped `ghost` call still shows up in
`toolsUsed`. -/
theorem toolsUsed_extraction_order_witness :
    (processInput ghostLLM 3 {} [] (resetState {} []) "hi").2.1.toolsUsed = ["ghost"] := by
  have h := toolsUsed_extraction_order ghostLLM 3 {} [] (resetState {} []) "hi" (by decide)
  rw [h]
  rfl
